import Mathlib

/-!
Shallow Lean embedding of the contact-directory program (src/1.py): validated
fields (Name, Phone, Birthday), Record, AddressBook (a dict keyed by name),
the birthday-window query, and the use-case-level bot functions.  Python
library behaviour that the program relies on (datetime construction and
comparison, date ordinals and weekdays on the proleptic Gregorian calendar,
strptime/strftime with the %d.%m.%Y pattern, str.isdigit, dict semantics,
str(KeyError) rendering) is modelled explicitly below, each at the point of
use.  The current date, obtained in the source from datetime.today(), is
passed as an explicit parameter.
-/

/-- ASCII decimal digit test on a character, by code point: the characters
U+0030 .. U+0039. -/
def asciiDigit (c : Char) : Bool := 48 ≤ c.toNat && c.toNat ≤ 57

/-- Start code points of blocks of ten consecutive decimal-digit characters
(Unicode category Nd), used to model Python's Unicode-aware digit handling:
ASCII, Arabic-Indic, Extended Arabic-Indic, Devanagari, Bengali, Gurmukhi,
Gujarati, Oriya, Tamil, Telugu, Kannada, Malayalam, Thai, Lao, Tibetan,
Myanmar, Khmer, Mongolian, Fullwidth.  The table is a partial (conservative)
model of the full Unicode data: characters outside the listed blocks are
treated as non-digits. -/
def ndRanges : List Nat :=
  [0x30, 0x660, 0x6F0, 0x966, 0x9E6, 0xA66, 0xAE6, 0xB66, 0xBE6, 0xC66,
   0xCE6, 0xD66, 0xE50, 0xED0, 0xF20, 0x1040, 0x17E0, 0x1810, 0xFF10]

/-- Membership of a character in one of the modelled Nd digit blocks; this is
the model of the regular-expression class \d as Python's re module interprets
it on str (Unicode decimal digits). -/
def ndDigit (c : Char) : Bool := ndRanges.any fun s => s ≤ c.toNat && c.toNat ≤ s + 9

/-- Decimal value of a digit character from one of the modelled Nd blocks
(offset from its block start); 0 for any other character. -/
def digitVal (c : Char) : Nat :=
  match ndRanges.find? (fun s => s ≤ c.toNat && c.toNat ≤ s + 9) with
  | some s => c.toNat - s
  | none => 0

/-- Model of Python's str.isdigit on a single character: true on the Nd
blocks above and additionally on the characters with Numeric_Type=Digit that
isdigit also accepts, of which the common superscript/subscript digits are
listed (again a partial, conservative table). -/
def pyIsdigitChar (c : Char) : Bool :=
  ndDigit c ||
    [0xB2, 0xB3, 0xB9, 0x2070, 0x2074, 0x2075, 0x2076, 0x2077, 0x2078, 0x2079,
     0x2080, 0x2081, 0x2082, 0x2083, 0x2084, 0x2085, 0x2086, 0x2087, 0x2088,
     0x2089].any (fun n => c.toNat == n)

/-- Model of Python's str.isdigit on a whole string: non-empty and every
character a digit. -/
def pyIsdigit (s : String) : Bool := !s.data.isEmpty && s.data.all pyIsdigitChar

/-- Calendar date (year, month, day), the model of Python's datetime.date /
the date component of datetime.datetime. -/
structure Date where
  year : Nat
  month : Nat
  day : Nat
deriving DecidableEq, Repr

/-- Gregorian leap-year rule, as in Python's calendar arithmetic. -/
def isLeap (y : Nat) : Bool := (y % 4 == 0 && y % 100 != 0) || y % 400 == 0

/-- Days in a month, given the leap flag of the year (0 for out-of-range
month numbers). -/
def monthLen (leap : Bool) : Nat → Nat
  | 1 => 31
  | 2 => if leap then 29 else 28
  | 3 => 31
  | 4 => 30
  | 5 => 31
  | 6 => 30
  | 7 => 31
  | 8 => 31
  | 9 => 30
  | 10 => 31
  | 11 => 30
  | 12 => 31
  | _ => 0

/-- Cumulative days before the given month in a year with the given leap
flag (the standard table used by Python's datetime module). -/
def daysBeforeMonth (leap : Bool) (m : Nat) : Nat :=
  let k := if leap then 1 else 0
  match m with
  | 1 => 0
  | 2 => 31
  | 3 => 59 + k
  | 4 => 90 + k
  | 5 => 120 + k
  | 6 => 151 + k
  | 7 => 181 + k
  | 8 => 212 + k
  | 9 => 243 + k
  | 10 => 273 + k
  | 11 => 304 + k
  | 12 => 334 + k
  | _ => 0

/-- Validity of a calendar date under Python's datetime constructor:
MINYEAR 1 ≤ year ≤ MAXYEAR 9999, 1 ≤ month ≤ 12, 1 ≤ day ≤ length of the
month. -/
def Date.valid (d : Date) : Bool :=
  1 ≤ d.year && d.year ≤ 9999 && 1 ≤ d.month && d.month ≤ 12 &&
    1 ≤ d.day && d.day ≤ monthLen (isLeap d.year) d.month

/-- Number of days in a year. -/
def daysInYear (y : Nat) : Nat := if isLeap y then 366 else 365

/-- Days strictly before January 1 of the given year, counting from year 1
(so the value at year 1 is 0); this is datetime's _days_before_year, written
as a recursion over years. -/
def daysBeforeYear : Nat → Nat
  | 0 => 0
  | 1 => 0
  | y + 2 => daysBeforeYear (y + 1) + daysInYear (y + 1)

/-- Proleptic-Gregorian ordinal of a date (January 1 of year 1 is day 1),
as in Python's date.toordinal. -/
def toOrdinal (d : Date) : Nat :=
  daysBeforeYear d.year + daysBeforeMonth (isLeap d.year) d.month + d.day

/-- Weekday of a date with Monday = 0 .. Sunday = 6, as in Python's
date.weekday() (January 1 of year 1, ordinal 1, is a Monday). -/
def Date.weekday (d : Date) : Nat := (toOrdinal d + 6) % 7

/-- English full weekday names, indexed by Date.weekday; the model of
strftime("%A") in the C/English locale. -/
def weekdayName : Nat → String
  | 0 => "Monday"
  | 1 => "Tuesday"
  | 2 => "Wednesday"
  | 3 => "Thursday"
  | 4 => "Friday"
  | 5 => "Saturday"
  | 6 => "Sunday"
  | _ => ""

/-- Lexicographic strict comparison of dates by (year, month, day), the
semantics of Python's date ordering used in the line birthday_this_year <
today. -/
def dateLt (a b : Date) : Bool :=
  decide (a.year < b.year) ||
    (a.year == b.year &&
      (decide (a.month < b.month) || (a.month == b.month && decide (a.day < b.day))))

/-- Replace the year of a date, checking validity of the result, as Python's
date.replace(year=y) does: fails (raising ValueError in the source) when the
resulting date is not a valid calendar date, e.g. February 29 in a non-leap
year, or a year outside 1..9999. -/
def replaceYear (d : Date) (y : Nat) : Option Date :=
  let d2 : Date := ⟨y, d.month, d.day⟩
  if d2.valid then some d2 else none

/-- Split a character list at every period, keeping empty pieces, so that
the original list is the pieces interleaved with periods. -/
def splitDots : List Char → List (List Char)
  | [] => [[]]
  | c :: rest =>
    if c = '.' then [] :: splitDots rest
    else
      match splitDots rest with
      | [] => [[c]]
      | p :: ps => (c :: p) :: ps

/-- Day field of the %d directive as CPython's _strptime compiles it: the
regular expression 3[01]|[12]\d|0[1-9]|[1-9]| [1-9], where the bracketed
classes are ASCII but \d is any Unicode decimal digit. -/
def dayShape : List Char → Bool
  | [c] => asciiDigit c && c ≠ '0'
  | [c1, c2] =>
    if c1 = ' ' then asciiDigit c2 && c2 ≠ '0'
    else
      (c1 = '3' && (c2 = '0' || c2 = '1')) ||
        ((c1 = '1' || c1 = '2') && ndDigit c2) ||
        (c1 = '0' && asciiDigit c2 && c2 ≠ '0')
  | _ => false

/-- Month field of the %m directive as CPython's _strptime compiles it:
the regular expression 1[0-2]|0[1-9]|[1-9]. -/
def monthShape : List Char → Bool
  | [c] => asciiDigit c && c ≠ '0'
  | [c1, c2] =>
    (c1 = '1' && (c2 = '0' || c2 = '1' || c2 = '2')) ||
      (c1 = '0' && asciiDigit c2 && c2 ≠ '0')
  | _ => false

/-- Year field of the %Y directive as CPython's _strptime compiles it: the
regular expression \d\d\d\d, exactly four decimal digits. -/
def yearShape (l : List Char) : Bool := l.length == 4 && l.all ndDigit

/-- Numeric value of a digit-character list, as Python's int() computes it
on the matched group (a leading space, from the padded day form, contributes
nothing, matching int's stripping of whitespace). -/
def partVal (l : List Char) : Nat := l.foldl (fun a c => 10 * a + digitVal c) 0

/-- Model of datetime.strptime(s, "%d.%m.%Y"): the string must decompose as
day-field, period, month-field, period, year-field with nothing left over
(CPython rejects any unconsumed suffix), and the extracted numbers must form
a valid calendar date; returns that date, with none standing for the
ValueError raise. -/
def strptimeDMY (s : String) : Option Date :=
  match splitDots s.data with
  | [d, m, y] =>
    if dayShape d && monthShape m && yearShape y then
      let dt : Date := ⟨partVal y, partVal m, partVal d⟩
      if dt.valid then some dt else none
    else none
  | _ => none

/-- Two zero-padded decimal digit characters of a number below 100, as
strftime's %d and %m produce. -/
def pad2chars (n : Nat) : List Char := [Nat.digitChar (n / 10 % 10), Nat.digitChar (n % 10)]

/-- Four zero-padded decimal digit characters of a number below 10000, the
model of strftime's %Y (CPython zero-pads; for years below 1000 the padding
is platform-dependent, see the round-trip theorem's hypothesis). -/
def pad4chars (n : Nat) : List Char :=
  [Nat.digitChar (n / 1000 % 10), Nat.digitChar (n / 100 % 10),
   Nat.digitChar (n / 10 % 10), Nat.digitChar (n % 10)]

/-- Model of d.strftime("%d.%m.%Y"). -/
def formatDMY (d : Date) : String :=
  String.mk (pad2chars d.day ++ '.' :: pad2chars d.month ++ '.' :: pad4chars d.year)

/-- Exceptions the bot functions can raise, the three classes the
input_error decorator catches. -/
inductive PyError where
  | valueError (msg : String)
  | indexError (msg : String)
  | keyError (msg : String)
deriving DecidableEq, Repr

/-- Rendering of a caught exception with str(e), as the decorator returns
it: ValueError and IndexError render their message verbatim, while
KeyError's str is the repr of its key, which wraps the message in single
quotes. -/
def PyError.str : PyError → String
  | .valueError m => m
  | .indexError m => m
  | .keyError m => "\x27" ++ m ++ "\x27"

/-- Name field: wraps the raw string with no validation. -/
structure Name where
  value : String
deriving DecidableEq, Repr

/-- Phone field: wraps the raw phone string. -/
structure Phone where
  value : String
deriving DecidableEq, Repr

/-- Phone.validate from the source: len(phone) == 10 and phone.isdigit(). -/
def phoneValidate (phone : String) : Bool := phone.length == 10 && pyIsdigit phone

/-- Phone construction: stores the string if it validates, otherwise raises
ValueError("Invalid phone format"). -/
def mkPhone (phone : String) : Except PyError Phone :=
  if phoneValidate phone then .ok ⟨phone⟩ else .error (.valueError "Invalid phone format")

/-- Birthday field: holds the parsed date (the source stores the datetime
returned by strptime; only its date component is ever used). -/
structure Birthday where
  value : Date
deriving DecidableEq, Repr

/-- Birthday construction: validates by strptime on "%d.%m.%Y" and stores
the parsed date, otherwise raises ValueError("Invalid birthday format").
The source parses twice (once in validate, once to store); this is the same
single parse. -/
def mkBirthday (date : String) : Except PyError Birthday :=
  match strptimeDMY date with
  | some dt => .ok ⟨dt⟩
  | none => .error (.valueError "Invalid birthday format")

/-- Record: a contact with a name, a phone list (in insertion order) and an
optional birthday, as constructed by Record.__init__. -/
structure Record where
  name : Name
  phones : List Phone
  birthday : Option Birthday
deriving DecidableEq, Repr

/-- Record.add_phone: validates the raw string as a Phone and appends it. -/
def Record.add_phone (r : Record) (phone : String) : Except PyError Record :=
  (mkPhone phone).map fun p => { r with phones := r.phones ++ [p] }

/-- Record.add_birthday: validates the raw string as a Birthday and replaces
any existing one. -/
def Record.add_birthday (r : Record) (date : String) : Except PyError Record :=
  (mkBirthday date).map fun b => { r with birthday := some b }

/-- The AddressBook's underlying dict, an insertion-ordered association
list from name to Record, with Python-dict update semantics. -/
abbrev Book := List (String × Record)

/-- Python dict assignment d[k] = v: overwrite in place if the key is
present (keeping its position), else append at the end. -/
def dictInsert (book : Book) (k : String) (r : Record) : Book :=
  match book with
  | [] => [(k, r)]
  | (k1, r1) :: rest => if k1 = k then (k, r) :: rest else (k1, r1) :: dictInsert rest k r

/-- Python dict key lookup d.get(k) / d[k]. -/
def dictGet (book : Book) (k : String) : Option Record :=
  match book with
  | [] => none
  | (k1, r1) :: rest => if k1 = k then some r1 else dictGet rest k

/-- Python dict key membership k in d. -/
def keyMem (book : Book) (k : String) : Bool :=
  match book with
  | [] => false
  | (k1, _) :: rest => k1 == k || keyMem rest k

/-- Python dict deletion del d[k] of a present key. -/
def dictDelete (book : Book) (k : String) : Book :=
  match book with
  | [] => []
  | (k1, r1) :: rest => if k1 = k then rest else (k1, r1) :: dictDelete rest k

/-- AddressBook.add_record: stores the record under its own name value. -/
def add_record (book : Book) (r : Record) : Book := dictInsert book r.name.value r

/-- AddressBook.find: lookup returning None when absent. -/
def findRecord (book : Book) (name : String) : Option Record := dictGet book name

/-- AddressBook.delete: removes the entry if present, a no-op otherwise. -/
def deleteRecord (book : Book) (name : String) : Book :=
  if keyMem book name then dictDelete book name else book

/-- Result groups of the birthday query: a defaultdict(list) in first-touch
key order, each key holding names in append order. -/
abbrev Groups := List (String × List String)

/-- Append a name under a key in the defaultdict: extend the existing list
if the key is present, else add a new key at the end. -/
def appendGroup (gs : Groups) (k n : String) : Groups :=
  match gs with
  | [] => [(k, [n])]
  | (k1, ns) :: rest => if k1 = k then (k1, ns ++ [n]) :: rest else (k1, ns) :: appendGroup rest k n

/-- Code of the source's get_birthdays_per_week line 72-75: apply the
birthday's month/day to the current year; if the result is strictly before
today, advance to next year.  Either replace can fail (February 29 in a
non-leap target year), which the source lets propagate as ValueError. -/
def nextOccurrence (birthday today : Date) : Option Date :=
  match replaceYear birthday today.year with
  | none => none
  | some bty => if dateLt bty today then replaceYear birthday (today.year + 1) else some bty

/-- Loop body of get_birthdays_per_week for one stored record: skip records
without a birthday; compute the next occurrence (propagating its failure);
include the record when delta_days < 7, grouping under Monday for weekend
days (weekday 5 or 6) and under the full weekday name otherwise. -/
def bwStep (today : Date) (acc : Option Groups) (entry : String × Record) : Option Groups :=
  match acc with
  | none => none
  | some birthdays =>
    match entry.2.birthday with
    | none => some birthdays
    | some bd =>
      match nextOccurrence bd.value today with
      | none => none
      | some bty =>
        let delta_days : Int := (toOrdinal bty : Int) - (toOrdinal today : Int)
        if delta_days < 7 then
          let weekday := if bty.weekday == 5 || bty.weekday == 6 then "Monday" else weekdayName bty.weekday
          some (appendGroup birthdays weekday entry.2.name.value)
        else some birthdays

/-- AddressBook.get_birthdays_per_week, iterating over the stored records in
dict order with today passed explicitly (the source reads
datetime.today().date()); none models the propagated ValueError from a
failing date replacement. -/
def get_birthdays_per_week (book : Book) (today : Date) : Option Groups :=
  book.foldl (bwStep today) (some [])

/-- Message of the ValueError raised by tuple unpacking name, phone = args
when args does not have exactly two elements. -/
def unpackTwoMsg (n : Nat) : String :=
  if n < 2 then "not enough values to unpack (expected 2, got " ++ toString n ++ ")"
  else "too many values to unpack (expected 2)"

/-- Body of add_contact_safely before the input_error decorator: unpack the
two arguments, raise KeyError("Contact already exists.") on a duplicate
name, otherwise build the record, validate and add the phone, and insert. -/
def addContactBody (args : List String) (book : Book) : Except PyError (String × Book) :=
  match args with
  | [name, phone] =>
    if keyMem book name then .error (.keyError "Contact already exists.")
    else
      match Record.add_phone ⟨⟨name⟩, [], none⟩ phone with
      | .error e => .error e
      | .ok record => .ok ("Contact added.", add_record book record)
  | _ => .error (.valueError (unpackTwoMsg args.length))

/-- Body of change_contact_safely: unpack, and when the name is present
overwrite the first stored phone's value with the raw string, with no
re-validation; the phones[0] access raises IndexError on an empty phone
list, and a missing name raises KeyError("Contact not found."). -/
def changeContactBody (args : List String) (book : Book) : Except PyError (String × Book) :=
  match args with
  | [name, phone] =>
    if keyMem book name then
      match dictGet book name with
      | none => .error (.keyError name)
      | some record =>
        match record.phones with
        | [] => .error (.indexError "list index out of range")
        | _ :: rest =>
          .ok ("Contact updated.", dictInsert book name { record with phones := ⟨phone⟩ :: rest })
    else .error (.keyError "Contact not found.")
  | _ => .error (.valueError (unpackTwoMsg args.length))

/-- Body of get_phone_safely: args[0] raises IndexError on an empty argument
list; a missing name raises KeyError("Contact not found."); otherwise the
first stored phone's value is returned (IndexError on an empty phone
list). -/
def getPhoneBody (args : List String) (book : Book) : Except PyError String :=
  match args with
  | [] => .error (.indexError "list index out of range")
  | name :: _ =>
    if keyMem book name then
      match dictGet book name with
      | none => .error (.keyError name)
      | some record =>
        match record.phones with
        | [] => .error (.indexError "list index out of range")
        | p :: _ => .ok p.value
    else .error (.keyError "Contact not found.")

/-- Body of add_birthday_safely: unpack, and when the name is present
validate the date and set the record's birthday. -/
def addBirthdayBody (args : List String) (book : Book) : Except PyError (String × Book) :=
  match args with
  | [name, date] =>
    if keyMem book name then
      match dictGet book name with
      | none => .error (.keyError name)
      | some record =>
        match Record.add_birthday record date with
        | .error e => .error e
        | .ok record2 => .ok ("Birthday added.", dictInsert book name record2)
    else .error (.keyError "Contact not found.")
  | _ => .error (.valueError (unpackTwoMsg args.length))

/-- Body of show_birthday_safely: args[0] raises IndexError on an empty
argument list; when the name is present and has a birthday, format it back
with strftime("%d.%m.%Y"); otherwise raise KeyError("Contact or birthday
not found."). -/
def showBirthdayBody (args : List String) (book : Book) : Except PyError String :=
  match args with
  | [] => .error (.indexError "list index out of range")
  | name :: _ =>
    if keyMem book name then
      match dictGet book name with
      | none => .error (.keyError name)
      | some record =>
        match record.birthday with
        | some b => .ok (formatDMY b.value)
        | none => .error (.keyError "Contact or birthday not found.")
    else .error (.keyError "Contact or birthday not found.")

/-- The input_error decorator applied to a state-mutating bot function:
a caught exception is rendered with str(e) and the book is left as it was
(the bodies above perform no mutation before raising). -/
def inputErrorState (body : List String → Book → Except PyError (String × Book))
    (args : List String) (book : Book) : String × Book :=
  match body args book with
  | .ok r => r
  | .error e => (e.str, book)

/-- The input_error decorator applied to a read-only bot function. -/
def inputErrorRead (body : List String → Book → Except PyError String)
    (args : List String) (book : Book) : String :=
  match body args book with
  | .ok s => s
  | .error e => e.str

/-- add_contact_safely as called by the dispatcher. -/
def add_contact_safely (args : List String) (book : Book) : String × Book :=
  inputErrorState addContactBody args book

/-- change_contact_safely as called by the dispatcher. -/
def change_contact_safely (args : List String) (book : Book) : String × Book :=
  inputErrorState changeContactBody args book

/-- get_phone_safely as called by the dispatcher. -/
def get_phone_safely (args : List String) (book : Book) : String :=
  inputErrorRead getPhoneBody args book

/-- add_birthday_safely as called by the dispatcher. -/
def add_birthday_safely (args : List String) (book : Book) : String × Book :=
  inputErrorState addBirthdayBody args book

/-- show_birthday_safely as called by the dispatcher. -/
def show_birthday_safely (args : List String) (book : Book) : String :=
  inputErrorRead showBirthdayBody args book

/-- Line generator of show_all_contacts, consumed left to right by
str.join: one name: firstPhone line per record, raising IndexError at the
first record with an empty phone list. -/
def showAllLines : Book → Except PyError (List String)
  | [] => .ok []
  | nr :: rest =>
    match nr.2.phones with
    | [] => .error (.indexError "list index out of range")
    | p :: _ =>
      match showAllLines rest with
      | .error e => .error e
      | .ok lines => .ok ((nr.1 ++ ": " ++ p.value) :: lines)

/-- show_all_contacts: not decorated by input_error.  Returns the dedicated
message on an empty book, else the joined lines; the IndexError from a
record with an empty phone list escapes the caller (the error result). -/
def show_all_contacts (book : Book) : Except PyError String :=
  if book.isEmpty then .ok "No contacts stored."
  else
    match showAllLines book with
    | .error e => .error e
    | .ok lines => .ok (String.intercalate "\n" lines)

/-- show_birthdays_next_week: not decorated by input_error.  Renders the
query's groups, propagating the ValueError a failing date replacement
raises inside get_birthdays_per_week. -/
def show_birthdays_next_week (book : Book) (today : Date) : Except PyError String :=
  match get_birthdays_per_week book today with
  | none => .error (.valueError "day is out of range for month")
  | some birthdays =>
    if birthdays.isEmpty then .ok "No birthdays next week."
    else .ok (String.intercalate "\n"
      (birthdays.map fun p => p.1 ++ ": " ++ String.intercalate ", " p.2))

/-- Membership of a name anywhere in the query's result groups. -/
def inGroups (n : String) (gs : Groups) : Prop := ∃ p ∈ gs, n ∈ p.2

/-- Membership of a name under a specific key of the result groups. -/
def inKey (n k : String) (gs : Groups) : Prop := ∃ ns, (k, ns) ∈ gs ∧ n ∈ ns

/-- Predicate stating that a stored record contributes an entry to the
query's result for the given today: it has a birthday whose computed next
occurrence exists and lies strictly less than 7 days ahead. -/
def contributes (today : Date) (n : String) (e : String × Record) : Prop :=
  e.2.name.value = n ∧ ∃ bd, e.2.birthday = some bd ∧
    ∃ bty, nextOccurrence bd.value today = some bty ∧
      (toOrdinal bty : Int) - (toOrdinal today : Int) < 7

/-- The weekday key the query files a next-occurrence date under. -/
def groupKeyOf (bty : Date) : String :=
  if bty.weekday == 5 || bty.weekday == 6 then "Monday" else weekdayName bty.weekday

/-- Predicate stating that a stored record contributes an entry under the
given key. -/
def contributesKey (today : Date) (n k : String) (e : String × Record) : Prop :=
  e.2.name.value = n ∧ ∃ bd, e.2.birthday = some bd ∧
    ∃ bty, nextOccurrence bd.value today = some bty ∧
      (toOrdinal bty : Int) - (toOrdinal today : Int) < 7 ∧ groupKeyOf bty = k

/-- Invariant of the spec: every stored record's own name value equals
the key it is stored under. -/
def KeysMatch (book : Book) : Prop := ∀ e ∈ book, e.2.name.value = e.1

/-- Invariant of the spec: every stored record has at least one phone. -/
def NonemptyPhones (book : Book) : Prop := ∀ e ∈ book, e.2.phones ≠ []

/-- Directory states reachable from the empty book using only the
use-case-level mutating operations (the read-only operations do not touch
the book). -/
inductive Reachable : Book → Prop where
  | empty : Reachable []
  | add (args : List String) (book : Book) :
      Reachable book → Reachable (add_contact_safely args book).2
  | change (args : List String) (book : Book) :
      Reachable book → Reachable (change_contact_safely args book).2
  | addBirthday (args : List String) (book : Book) :
      Reachable book → Reachable (add_birthday_safely args book).2

/-- Spec-side form of C4's strict-format clause: the string is a two-digit
day, a period, a two-digit month, a period and a four-digit year, all
characters ASCII decimal digits. -/
def strictDMY (s : String) : Prop :=
  ∃ d m y : List Char,
    s.data = d ++ '.' :: m ++ '.' :: y ∧
      d.length = 2 ∧ (∀ c ∈ d, asciiDigit c = true) ∧
      m.length = 2 ∧ (∀ c ∈ m, asciiDigit c = true) ∧
      y.length = 4 ∧ (∀ c ∈ y, asciiDigit c = true)

/-- Spec-side (amended) form of what strptime on %d.%m.%Y accepts: a
day field, period, month field, period, year field decomposition whose
extracted numbers form a valid calendar date. -/
def lenientDMY (s : String) : Prop :=
  ∃ d m y : List Char,
    s.data = d ++ '.' :: m ++ '.' :: y ∧
      dayShape d = true ∧ monthShape m = true ∧ yearShape y = true ∧
      (Date.valid ⟨partVal y, partVal m, partVal d⟩) = true

theorem dictGet_mem {book : Book} {k : String} {r : Record} (h : dictGet book k = some r) :
    (k, r) ∈ book := by
  induction book with
  | nil => simp [dictGet] at h
  | cons e rest ih =>
    obtain ⟨k1, r1⟩ := e
    simp only [dictGet] at h
    split at h
    · rename_i hk
      cases h
      exact hk ▸ List.mem_cons_self _ _
    · exact List.mem_cons_of_mem _ (ih h)

theorem keyMem_iff_get {book : Book} {k : String} :
    keyMem book k = true ↔ ∃ r, dictGet book k = some r := by
  induction book with
  | nil => simp [keyMem, dictGet]
  | cons e rest ih =>
    obtain ⟨k1, r1⟩ := e
    simp only [keyMem, dictGet, Bool.or_eq_true, beq_iff_eq]
    constructor
    · rintro (h | h)
      · exact ⟨r1, by simp [h]⟩
      · obtain ⟨r, hr⟩ := ih.mp h
        by_cases hk : k1 = k
        · exact ⟨r1, by simp [hk]⟩
        · exact ⟨r, by simp [hk, hr]⟩
    · rintro ⟨r, hr⟩
      split at hr
      · exact Or.inl (by assumption)
      · exact Or.inr (ih.mpr ⟨r, hr⟩)

theorem mem_dictInsert {book : Book} {k : String} {r : Record} :
    ∀ e ∈ dictInsert book k r, e ∈ book ∨ e = (k, r) := by
  induction book with
  | nil => simp [dictInsert]
  | cons e0 rest ih =>
    obtain ⟨k1, r1⟩ := e0
    intro e he
    simp only [dictInsert] at he
    split at he
    · rcases List.mem_cons.mp he with h | h
      · exact Or.inr h
      · exact Or.inl (List.mem_cons_of_mem _ h)
    · rcases List.mem_cons.mp he with h | h
      · exact Or.inl (h ▸ List.mem_cons_self _ _)
      · rcases ih e h with h2 | h2
        · exact Or.inl (List.mem_cons_of_mem _ h2)
        · exact Or.inr h2

theorem dictGet_insert_ne {book : Book} (k : String) (r : Record) {k2 : String} (h : k2 ≠ k) :
    dictGet (dictInsert book k r) k2 = dictGet book k2 := by
  induction book with
  | nil => simp [dictInsert, dictGet, Ne.symm h]
  | cons e rest ih =>
    obtain ⟨k1, r1⟩ := e
    simp only [dictInsert]
    split
    · rename_i hk
      subst hk
      simp [dictGet, h, Ne.symm h]
    · simp only [dictGet, ih]

theorem mem_dictDelete {book : Book} {k : String} : ∀ e ∈ dictDelete book k, e ∈ book := by
  induction book with
  | nil => simp [dictDelete]
  | cons e0 rest ih =>
    obtain ⟨k1, r1⟩ := e0
    intro e he
    simp only [dictDelete] at he
    split at he
    · exact List.mem_cons_of_mem _ he
    · rcases List.mem_cons.mp he with h | h
      · exact h ▸ List.mem_cons_self _ _
      · exact List.mem_cons_of_mem _ (ih e h)

/-- C3, amended: Phone construction succeeds exactly when the string has
length 10 and every character is a digit in the sense of Python's
str.isdigit; every ASCII decimal digit qualifies, but so do non-ASCII
Unicode digits, so acceptance is wider than the ASCII-only predicate the
claim states.  On success the stored value is the input string unchanged. -/
theorem claim3_phone_validation (s : String) :
    ((mkPhone s).isOk = true ↔ s.length = 10 ∧ ∀ c ∈ s.data, pyIsdigitChar c = true) ∧
      (∀ c : Char, asciiDigit c = true → pyIsdigitChar c = true) ∧
      (∀ p, mkPhone s = .ok p → p.value = s) := by
  refine ⟨?_, ?_, ?_⟩
  · have hv : (mkPhone s).isOk = phoneValidate s := by
      unfold mkPhone
      split <;> simp_all [Except.isOk, Except.toBool]
    rw [hv]
    simp only [phoneValidate, pyIsdigit, Bool.and_eq_true, beq_iff_eq, Bool.not_eq_true',
      List.all_eq_true]
    constructor
    · rintro ⟨h1, _, h3⟩
      exact ⟨h1, h3⟩
    · rintro ⟨h1, h2⟩
      refine ⟨h1, ?_, h2⟩
      have hl : s.data.length = 10 := h1
      cases hdat : s.data with
      | nil => rw [hdat] at hl; simp at hl
      | cons a t => simp
  · intro c hc
    simp only [asciiDigit, Bool.and_eq_true, decide_eq_true_eq] at hc
    simp only [pyIsdigitChar, ndDigit, ndRanges, Bool.or_eq_true, List.any_cons,
      Bool.and_eq_true, decide_eq_true_eq]
    left
    left
    omega
  · intro p h
    unfold mkPhone at h
    split at h
    · cases h; rfl
    · cases h

theorem claim3_witness : (mkPhone "0123456789").isOk = true :=
  (claim3_phone_validation "0123456789").1.mpr (by decide)

theorem claim3_counterexample :
    (mkPhone "٠١٢٣٤٥٦٧٨٩").isOk = true ∧
      ¬ ∀ c ∈ ("٠١٢٣٤٥٦٧٨٩" : String).data, asciiDigit c = true := by
  refine ⟨by decide, by decide⟩

/-- C6, amended: adding a contact whose name is already present fails and
leaves the book (and so the existing record) unmodified, but the returned
message is str(KeyError("Contact already exists.")), which carries the
repr quoting: it is exactly the quoted form of the claimed message.  For a
name not yet present and a phone passing validation, a record holding just
that phone is created, inserted under the name, and a confirmation is
returned. -/
theorem claim6_add_contact (book : Book) (name phone : String) :
    (keyMem book name = true →
      add_contact_safely [name, phone] book = ("\x27Contact already exists.\x27", book)) ∧
      (keyMem book name = false → phoneValidate phone = true →
        add_contact_safely [name, phone] book =
          ("Contact added.", dictInsert book name ⟨⟨name⟩, [⟨phone⟩], none⟩)) := by
  constructor
  · intro h
    simp [add_contact_safely, inputErrorState, addContactBody, h, PyError.str]
  · intro h hv
    simp [add_contact_safely, inputErrorState, addContactBody, h, Record.add_phone, mkPhone, hv,
      add_record, Except.map]

theorem claim6_witness :
    add_contact_safely ["Alice", "1112223334"]
        [("Alice", ⟨⟨"Alice"⟩, [⟨"0000000000"⟩], none⟩)] =
      ("\x27Contact already exists.\x27", [("Alice", ⟨⟨"Alice"⟩, [⟨"0000000000"⟩], none⟩)]) :=
  (claim6_add_contact [("Alice", ⟨⟨"Alice"⟩, [⟨"0000000000"⟩], none⟩)] "Alice" "1112223334").1
    (by decide)

theorem claim6_counterexample :
    (add_contact_safely ["Alice", "1112223334"]
          [("Alice", ⟨⟨"Alice"⟩, [⟨"0000000000"⟩], none⟩)]).1 ≠
        "Contact already exists." ∧
      (add_contact_safely ["Alice", "1112223334"]
          [("Alice", ⟨⟨"Alice"⟩, [⟨"0000000000"⟩], none⟩)]).2 =
        [("Alice", ⟨⟨"Alice"⟩, [⟨"0000000000"⟩], none⟩)] := by
  refine ⟨by decide, rfl⟩

/-- C7, amended: when the name is present and its record has at least one
phone, change-contact overwrites the first stored phone's value with the new
raw string with no re-validation (the string is arbitrary), keeps the
record's remaining phones, name and birthday, leaves every other entry of
the book unchanged, and returns a confirmation; when the name is absent it
fails, returning str(KeyError("Contact not found.")), which is the quoted
form of the claimed message. -/
theorem claim7_change_contact (book : Book) (name phone : String) :
    (∀ r p rest, dictGet book name = some r → r.phones = p :: rest →
      change_contact_safely [name, phone] book =
          ("Contact updated.", dictInsert book name { r with phones := ⟨phone⟩ :: rest }) ∧
        ∀ k, k ≠ name →
          dictGet (dictInsert book name { r with phones := ⟨phone⟩ :: rest }) k =
            dictGet book k) ∧
      (keyMem book name = false →
        change_contact_safely [name, phone] book = ("\x27Contact not found.\x27", book)) := by
  constructor
  · intro r p rest hget hp
    have hk : keyMem book name = true := keyMem_iff_get.mpr ⟨r, hget⟩
    refine ⟨?_, fun k hkk => dictGet_insert_ne _ _ hkk⟩
    simp [change_contact_safely, inputErrorState, changeContactBody, hk, hget, hp]
  · intro h
    simp [change_contact_safely, inputErrorState, changeContactBody, h, PyError.str]

theorem claim7_witness :
    change_contact_safely ["Bob", "not a number"] [("Bob", ⟨⟨"Bob"⟩, [⟨"0123456789"⟩], none⟩)] =
      ("Contact updated.", [("Bob", ⟨⟨"Bob"⟩, [⟨"not a number"⟩], none⟩)]) :=
  ((claim7_change_contact [("Bob", ⟨⟨"Bob"⟩, [⟨"0123456789"⟩], none⟩)] "Bob" "not a number").1
    ⟨⟨"Bob"⟩, [⟨"0123456789"⟩], none⟩ ⟨"0123456789"⟩ [] rfl rfl).1

theorem claim7_counterexample :
    (change_contact_safely ["Bob", "5556667778"] []).1 ≠ "Contact not found." ∧
      (change_contact_safely ["Bob", "5556667778"] []).1 = "\x27Contact not found.\x27" := by
  refine ⟨by decide, rfl⟩

theorem showAllLines_ok (book : Book) (h : ∀ e ∈ book, e.2.phones ≠ []) :
    ∃ lines, showAllLines book = .ok lines := by
  induction book with
  | nil => exact ⟨[], rfl⟩
  | cons nr rest ih =>
    obtain ⟨lines, hl⟩ := ih fun e he => h e (List.mem_cons_of_mem _ he)
    have hnr := h nr (List.mem_cons_self _ _)
    cases hp : nr.2.phones with
    | nil => exact absurd hp hnr
    | cons p ps =>
      exact ⟨(nr.1 ++ ": " ++ p.value) :: lines, by simp [showAllLines, hp, hl]⟩

/-- C5, amended: the five input_error-decorated operations never raise:
whatever exception their body raises is caught and rendered as its display
string, with the book left unchanged.  The two undecorated operations can
raise past their call: show_all_contacts raises IndexError when some record
has an empty phone list (it succeeds whenever every record has a phone),
and show_birthdays_next_week propagates the date-construction error from
the query (it succeeds whenever the query does). -/
theorem claim5_error_boundary :
    (∀ args book e, addContactBody args book = .error e →
        add_contact_safely args book = (e.str, book)) ∧
      (∀ args book e, changeContactBody args book = .error e →
        change_contact_safely args book = (e.str, book)) ∧
      (∀ args book e, addBirthdayBody args book = .error e →
        add_birthday_safely args book = (e.str, book)) ∧
      (∀ args book e, getPhoneBody args book = .error e → get_phone_safely args book = e.str) ∧
      (∀ args book e, showBirthdayBody args book = .error e →
        show_birthday_safely args book = e.str) ∧
      (∀ book : Book, (∀ e ∈ book, e.2.phones ≠ []) → (show_all_contacts book).isOk = true) ∧
      (∀ (book : Book) (today : Date), (get_birthdays_per_week book today).isSome = true →
        (show_birthdays_next_week book today).isOk = true) := by
  refine ⟨?_, ?_, ?_, ?_, ?_, ?_, ?_⟩
  · intro args book e h
    simp [add_contact_safely, inputErrorState, h]
  · intro args book e h
    simp [change_contact_safely, inputErrorState, h]
  · intro args book e h
    simp [add_birthday_safely, inputErrorState, h]
  · intro args book e h
    simp [get_phone_safely, inputErrorRead, h]
  · intro args book e h
    simp [show_birthday_safely, inputErrorRead, h]
  · intro book h
    unfold show_all_contacts
    split
    · rfl
    · obtain ⟨lines, hl⟩ := showAllLines_ok book h
      simp [hl, Except.isOk, Except.toBool]
  · intro book today h
    cases hq : get_birthdays_per_week book today with
    | none => rw [hq] at h; simp at h
    | some gs =>
      unfold show_birthdays_next_week
      rw [hq]
      split
      · rename_i heq
        cases heq
      · rename_i birthdays heq
        split <;> simp [Except.isOk, Except.toBool]

theorem claim5_witness :
    (show_all_contacts [("A", ⟨⟨"A"⟩, [⟨"0123456789"⟩], none⟩)]).isOk = true :=
  claim5_error_boundary.2.2.2.2.2.1 [("A", ⟨⟨"A"⟩, [⟨"0123456789"⟩], none⟩)] (by decide)

theorem claim5_counterexample :
    show_all_contacts [("A", ⟨⟨"A"⟩, [], none⟩)] =
      .error (.indexError "list index out of range") := rfl

theorem mkPhone_ok {s : String} {p : Phone} (h : mkPhone s = .ok p) : p = ⟨s⟩ := by
  unfold mkPhone at h
  split at h
  · cases h; rfl
  · cases h

theorem addContact_cases (args : List String) (book : Book) :
    (add_contact_safely args book).2 = book ∨
      ∃ name phone, args = [name, phone] ∧ keyMem book name = false ∧
        (add_contact_safely args book).2 = dictInsert book name ⟨⟨name⟩, [⟨phone⟩], none⟩ := by
  unfold add_contact_safely inputErrorState addContactBody
  rcases args with _ | ⟨name, _ | ⟨phone, _ | ⟨x, xs⟩⟩⟩
  · exact Or.inl rfl
  · exact Or.inl rfl
  · by_cases hk : keyMem book name
    · simp [hk]
    · cases hp : mkPhone phone with
      | error e => simp [hk, Record.add_phone, hp, Except.map]
      | ok p =>
        right
        refine ⟨name, phone, rfl, by simp [hk], ?_⟩
        rw [mkPhone_ok hp] at hp
        simp [hk, Record.add_phone, hp, Except.map, add_record]
  · exact Or.inl rfl

theorem changeContact_cases (args : List String) (book : Book) :
    (change_contact_safely args book).2 = book ∨
      ∃ name phone r p rest, args = [name, phone] ∧ dictGet book name = some r ∧
        r.phones = p :: rest ∧
        (change_contact_safely args book).2 =
          dictInsert book name { r with phones := ⟨phone⟩ :: rest } := by
  unfold change_contact_safely inputErrorState changeContactBody
  rcases args with _ | ⟨name, _ | ⟨phone, _ | ⟨x, xs⟩⟩⟩
  · exact Or.inl rfl
  · exact Or.inl rfl
  · by_cases hk : keyMem book name
    · cases hget : dictGet book name with
      | none => simp [hk, hget]
      | some r =>
        cases hp : r.phones with
        | nil => simp [hk, hget, hp]
        | cons p rest =>
          right
          exact ⟨name, phone, r, p, rest, rfl, hget, hp, by simp [hk, hget, hp]⟩
    · simp [hk]
  · exact Or.inl rfl

theorem addBirthday_cases (args : List String) (book : Book) :
    (add_birthday_safely args book).2 = book ∨
      ∃ name date r b, args = [name, date] ∧ dictGet book name = some r ∧
        mkBirthday date = .ok b ∧
        (add_birthday_safely args book).2 = dictInsert book name { r with birthday := some b } := by
  unfold add_birthday_safely inputErrorState addBirthdayBody
  rcases args with _ | ⟨name, _ | ⟨date, _ | ⟨x, xs⟩⟩⟩
  · exact Or.inl rfl
  · exact Or.inl rfl
  · by_cases hk : keyMem book name
    · cases hget : dictGet book name with
      | none => simp [hk, hget]
      | some r =>
        cases hb : mkBirthday date with
        | error e => simp [hk, hget, Record.add_birthday, hb, Except.map]
        | ok b =>
          right
          exact ⟨name, date, r, b, rfl, hget, hb,
            by simp [hk, hget, Record.add_birthday, hb, Except.map]⟩
    · simp [hk]
  · exact Or.inl rfl

theorem keysMatch_insert {book : Book} {k : String} {r : Record} (h : KeysMatch book)
    (hr : r.name.value = k) : KeysMatch (dictInsert book k r) := by
  intro e he
  rcases mem_dictInsert e he with h2 | h2
  · exact h e h2
  · subst h2; exact hr

/-- C8: every operation of the book preserves the invariant that a stored
record's own name value equals its key: add_record keys the record by its
own name, find returns a record whose name is the looked-up key, delete
only removes entries, and the three mutating use-case operations either
leave the book unchanged on failure or insert a record whose name equals
the key they insert it under. -/
theorem claim8_name_key_invariant (book : Book) (h : KeysMatch book) :
    (∀ r : Record, KeysMatch (add_record book r)) ∧
      (∀ name r, findRecord book name = some r → r.name.value = name) ∧
      (∀ name, KeysMatch (deleteRecord book name)) ∧
      (∀ args, KeysMatch (add_contact_safely args book).2) ∧
      (∀ args, KeysMatch (change_contact_safely args book).2) ∧
      (∀ args, KeysMatch (add_birthday_safely args book).2) := by
  refine ⟨?_, ?_, ?_, ?_, ?_, ?_⟩
  · intro r
    exact keysMatch_insert h rfl
  · intro name r hr
    have hg : dictGet book name = some r := hr
    exact h (name, r) (dictGet_mem hg)
  · intro name
    unfold deleteRecord
    split
    · intro e he
      exact h e (mem_dictDelete e he)
    · exact h
  · intro args
    rcases addContact_cases args book with hc | ⟨name, phone, _, _, hc⟩
    · rw [hc]; exact h
    · rw [hc]; exact keysMatch_insert h rfl
  · intro args
    rcases changeContact_cases args book with hc | ⟨name, phone, r, p, rest, _, hget, hp, hc⟩
    · rw [hc]; exact h
    · rw [hc]
      exact keysMatch_insert h (h (name, r) (dictGet_mem hget))
  · intro args
    rcases addBirthday_cases args book with hc | ⟨name, date, r, b, _, hget, hb, hc⟩
    · rw [hc]; exact h
    · rw [hc]
      exact keysMatch_insert h (h (name, r) (dictGet_mem hget))

theorem claim8_witness :
    KeysMatch (add_record [] ⟨⟨"Eve"⟩, [⟨"1234567890"⟩], none⟩) :=
  (claim8_name_key_invariant [] (by intro e he; simp at he)).1 ⟨⟨"Eve"⟩, [⟨"1234567890"⟩], none⟩

theorem reachable_nonempty {book : Book} (h : Reachable book) : NonemptyPhones book := by
  induction h with
  | empty => intro e he; simp at he
  | add args b _ ih =>
    rcases addContact_cases args b with hc | ⟨name, phone, _, _, hc⟩
    · rw [hc]; exact ih
    · rw [hc]
      intro e he
      rcases mem_dictInsert e he with h2 | h2
      · exact ih e h2
      · subst h2; simp
  | change args b _ ih =>
    rcases changeContact_cases args b with hc | ⟨name, phone, r, p, rest, _, hget, hp, hc⟩
    · rw [hc]; exact ih
    · rw [hc]
      intro e he
      rcases mem_dictInsert e he with h2 | h2
      · exact ih e h2
      · subst h2; simp
  | addBirthday args b _ ih =>
    rcases addBirthday_cases args b with hc | ⟨name, date, r, bd, _, hget, hb, hc⟩
    · rw [hc]; exact ih
    · rw [hc]
      intro e he
      rcases mem_dictInsert e he with h2 | h2
      · exact ih e h2
      · subst h2
        simpa using ih (name, r) (dictGet_mem hget)

/-- C10: in every book state reachable through the use-case operations
alone, every stored record has a non-empty phone list, so the first-phone
accesses cannot fail: show_all_contacts succeeds, and for any stored name
the bodies of change-contact and get-phone do not raise. -/
theorem claim10_nonempty_phones (book : Book) (h : Reachable book) :
    NonemptyPhones book ∧ (show_all_contacts book).isOk = true ∧
      (∀ name phone, keyMem book name = true →
        (changeContactBody [name, phone] book).isOk = true) ∧
      (∀ name, keyMem book name = true → (getPhoneBody [name] book).isOk = true) := by
  have hne := reachable_nonempty h
  refine ⟨hne, ?_, ?_, ?_⟩
  · unfold show_all_contacts
    split
    · rfl
    · obtain ⟨lines, hl⟩ := showAllLines_ok book hne
      simp [hl, Except.isOk, Except.toBool]
  · intro name phone hk
    obtain ⟨r, hget⟩ := keyMem_iff_get.mp hk
    have hr := hne (name, r) (dictGet_mem hget)
    cases hp : r.phones with
    | nil => exact absurd hp hr
    | cons p rest =>
      simp [changeContactBody, hk, hget, hp, Except.isOk, Except.toBool]
  · intro name hk
    obtain ⟨r, hget⟩ := keyMem_iff_get.mp hk
    have hr := hne (name, r) (dictGet_mem hget)
    cases hp : r.phones with
    | nil => exact absurd hp hr
    | cons p rest =>
      simp [getPhoneBody, hk, hget, hp, Except.isOk, Except.toBool]

theorem claim10_witness :
    NonemptyPhones (add_contact_safely ["Ann", "0123456789"] []).2 :=
  (claim10_nonempty_phones (add_contact_safely ["Ann", "0123456789"] []).2
    (Reachable.add ["Ann", "0123456789"] [] Reachable.empty)).1

theorem foldl_bwStep_none (today : Date) (book : Book) :
    book.foldl (bwStep today) none = none := by
  induction book with
  | nil => rfl
  | cons e rest ih => exact ih

theorem bw_error_of_none (today : Date) (book : Book) :
    ∀ (acc : Option Groups) (k : String) (r : Record) (bd : Birthday),
      (k, r) ∈ book → r.birthday = some bd → nextOccurrence bd.value today = none →
      book.foldl (bwStep today) acc = none := by
  induction book with
  | nil =>
    intro acc k r bd hmem
    simp at hmem
  | cons e rest ih =>
    intro acc k r bd hmem hbd hno
    rcases List.mem_cons.mp hmem with he | he
    · cases acc with
      | none => exact foldl_bwStep_none today rest
      | some gs =>
        have hstep : bwStep today (some gs) e = none := by
          rw [← he]
          simp [bwStep, hbd, hno]
        simp only [List.foldl, hstep]
        exact foldl_bwStep_none today rest
    · exact ih (bwStep today acc e) k r bd he hbd hno

theorem isLeap_succ {y : Nat} (h : isLeap y = true) : isLeap (y + 1) = false := by
  simp only [isLeap, Bool.or_eq_true, Bool.and_eq_true, beq_iff_eq, bne_iff_ne] at h
  rw [Bool.eq_false_iff]
  intro hc
  simp only [isLeap, Bool.or_eq_true, Bool.and_eq_true, beq_iff_eq, bne_iff_ne] at hc
  omega

/-- C9: a stored birthday of February 29 whose target year is not a leap
year makes get_birthdays_per_week fail with the propagated
date-construction error (the none result): either the current year is not
leap, so the first replace already fails, or the February 29 of the (leap)
current year lies strictly before today, so the query advances to the next
year, which is never a leap year (nor a representable one, at the 9999
boundary), and the second replace fails. -/
theorem claim9_feb29_error (book : Book) (today : Date) (htoday : today.valid = true)
    (k : String) (r : Record) (bd : Birthday) (hmem : (k, r) ∈ book)
    (hbd : r.birthday = some bd) (hm : bd.value.month = 2) (hd : bd.value.day = 29)
    (htarget : isLeap today.year = false ∨ dateLt ⟨today.year, 2, 29⟩ today = true) :
    get_birthdays_per_week book today = none := by
  have hty : 1 ≤ today.year ∧ today.year ≤ 9999 := by
    simp only [Date.valid, Bool.and_eq_true, decide_eq_true_eq] at htoday
    exact ⟨htoday.1.1.1.1.1, htoday.1.1.1.1.2⟩
  have hno : nextOccurrence bd.value today = none := by
    unfold nextOccurrence replaceYear
    by_cases hleap : isLeap today.year
    · have hlt : dateLt ⟨today.year, 2, 29⟩ today = true := by
        rcases htarget with hf | ht
        · rw [hleap] at hf; cases hf
        · exact ht
      have hv1 : (⟨today.year, bd.value.month, bd.value.day⟩ : Date).valid = true := by
        simp [Date.valid, hm, hd, monthLen, hleap, hty.1, hty.2]
      have hv2 : (⟨today.year + 1, bd.value.month, bd.value.day⟩ : Date).valid = false := by
        by_cases h9 : today.year + 1 ≤ 9999
        · have hl2 : isLeap (today.year + 1) = false := isLeap_succ hleap
          simp [Date.valid, hm, hd, monthLen, hl2]
        · simp [Date.valid, h9]
      simp only [hv1, if_true]
      rw [show (⟨today.year, bd.value.month, bd.value.day⟩ : Date) = ⟨today.year, 2, 29⟩ from by
        rw [hm, hd], hlt]
      simp [hv2]
    · have hv1 : (⟨today.year, bd.value.month, bd.value.day⟩ : Date).valid = false := by
        have hl : isLeap today.year = false := by
          rw [Bool.eq_false_iff]; exact hleap
        simp [Date.valid, hm, hd, monthLen, hl]
      simp [hv1]
  exact bw_error_of_none today book (some []) k r bd hmem hbd hno

theorem claim9_witness : get_birthdays_per_week
      [("Bob", ⟨⟨"Bob"⟩, [⟨"0123456789"⟩], some ⟨⟨4, 2, 29⟩⟩⟩)] ⟨5, 1, 1⟩ = none :=
  claim9_feb29_error [("Bob", ⟨⟨"Bob"⟩, [⟨"0123456789"⟩], some ⟨⟨4, 2, 29⟩⟩⟩)] ⟨5, 1, 1⟩
    (by decide) "Bob" ⟨⟨"Bob"⟩, [⟨"0123456789"⟩], some ⟨⟨4, 2, 29⟩⟩⟩ ⟨⟨4, 2, 29⟩⟩
    (by simp) rfl rfl rfl (Or.inl (by decide))

theorem inGroups_cons {n : String} {p : String × List String} {l : Groups} :
    inGroups n (p :: l) ↔ n ∈ p.2 ∨ inGroups n l := by
  constructor
  · rintro ⟨q, hq, hn⟩
    rcases List.mem_cons.mp hq with h | h
    · exact Or.inl (h ▸ hn)
    · exact Or.inr ⟨q, h, hn⟩
  · rintro (h | ⟨q, hq, hn⟩)
    · exact ⟨p, List.mem_cons_self _ _, h⟩
    · exact ⟨q, List.mem_cons_of_mem _ hq, hn⟩

theorem inGroups_nil {n : String} : ¬ inGroups n [] := by
  rintro ⟨q, hq, _⟩
  simp at hq

theorem inGroups_appendGroup (gs : Groups) (k m n : String) :
    inGroups n (appendGroup gs k m) ↔ inGroups n gs ∨ n = m := by
  induction gs with
  | nil =>
    simp only [appendGroup, inGroups_cons]
    constructor
    · rintro (h | h)
      · simp at h
        exact Or.inr h
      · exact absurd h inGroups_nil
    · rintro (h | h)
      · exact absurd h inGroups_nil
      · exact Or.inl (by simp [h])
  | cons g rest ih =>
    obtain ⟨k1, ns⟩ := g
    simp only [appendGroup]
    split
    · simp only [inGroups_cons, List.mem_append, List.mem_singleton]
      tauto
    · simp only [inGroups_cons, ih]
      tauto

theorem inKey_cons {n k : String} {p : String × List String} {l : Groups} :
    inKey n k (p :: l) ↔ (p.1 = k ∧ n ∈ p.2) ∨ inKey n k l := by
  obtain ⟨p1, p2⟩ := p
  constructor
  · rintro ⟨ns, hmem, hn⟩
    rcases List.mem_cons.mp hmem with h | h
    · rw [← h]
      exact Or.inl ⟨rfl, hn⟩
    · exact Or.inr ⟨ns, h, hn⟩
  · rintro (⟨hk, hn⟩ | ⟨ns, hmem, hn⟩)
    · subst hk
      exact ⟨p2, List.mem_cons_self _ _, hn⟩
    · exact ⟨ns, List.mem_cons_of_mem _ hmem, hn⟩

theorem inKey_nil {n k : String} : ¬ inKey n k [] := by
  rintro ⟨ns, hmem, _⟩
  simp at hmem

theorem inKey_appendGroup (gs : Groups) (k0 m n k : String) :
    inKey n k (appendGroup gs k0 m) ↔ inKey n k gs ∨ (k = k0 ∧ n = m) := by
  induction gs with
  | nil =>
    simp only [appendGroup, inKey_cons]
    constructor
    · rintro (⟨hk, hn⟩ | h)
      · simp at hn
        exact Or.inr ⟨hk.symm, hn⟩
      · exact absurd h inKey_nil
    · rintro (h | ⟨hk, hn⟩)
      · exact absurd h inKey_nil
      · exact Or.inl ⟨hk.symm, by simp [hn]⟩
  | cons g rest ih =>
    obtain ⟨k1, ns⟩ := g
    simp only [appendGroup]
    split
    · rename_i hk1
      subst hk1
      simp only [inKey_cons, List.mem_append, List.mem_singleton]
      constructor
      · rintro (⟨hk, hn | hn⟩ | h)
        · exact Or.inl (Or.inl ⟨hk, hn⟩)
        · exact Or.inr ⟨hk.symm, hn⟩
        · exact Or.inl (Or.inr h)
      · rintro ((⟨hk, hn⟩ | h) | ⟨hk, hn⟩)
        · exact Or.inl ⟨hk, Or.inl hn⟩
        · exact Or.inr h
        · exact Or.inl ⟨hk.symm, Or.inr hn⟩
    · simp only [inKey_cons, ih]
      tauto

theorem bw_fold_mem (today : Date) (book : Book) :
    ∀ (gs res : Groups), book.foldl (bwStep today) (some gs) = some res →
      ∀ n, inGroups n res ↔ inGroups n gs ∨ ∃ e ∈ book, contributes today n e := by
  induction book with
  | nil =>
    intro gs res h n
    injection h with h
    subst h
    simp
  | cons e rest ih =>
    intro gs res h n
    obtain ⟨k0, r0⟩ := e
    simp only [List.foldl] at h
    cases hb : r0.birthday with
    | none =>
      rw [show bwStep today (some gs) (k0, r0) = some gs from by simp [bwStep, hb]] at h
      rw [ih gs res h n]
      simp only [List.exists_mem_cons_iff, contributes, hb]
      constructor
      · rintro (h1 | h1)
        · exact Or.inl h1
        · exact Or.inr (Or.inr h1)
      · rintro (h1 | ⟨_, _, h2, _⟩ | h1)
        · exact Or.inl h1
        · cases h2
        · exact Or.inr h1
    | some bd =>
      cases hno : nextOccurrence bd.value today with
      | none =>
        rw [show bwStep today (some gs) (k0, r0) = none from by simp [bwStep, hb, hno]] at h
        rw [foldl_bwStep_none] at h
        cases h
      | some bty =>
        by_cases hdelta : (toOrdinal bty : Int) - (toOrdinal today : Int) < 7
        · rw [show bwStep today (some gs) (k0, r0) =
              some (appendGroup gs (groupKeyOf bty) r0.name.value) from by
            simp [bwStep, hb, hno, groupKeyOf, hdelta]] at h
          rw [ih _ res h n, inGroups_appendGroup]
          simp only [List.exists_mem_cons_iff, contributes, hb, hno, Option.some.injEq]
          constructor
          · rintro ((h1 | h1) | h1)
            · exact Or.inl h1
            · exact Or.inr (Or.inl ⟨h1.symm, bd, rfl, bty, hno, hdelta⟩)
            · exact Or.inr (Or.inr h1)
          · rintro (h1 | ⟨h1, _, h2, _⟩ | h1)
            · exact Or.inl (Or.inl h1)
            · exact Or.inl (Or.inr h1.symm)
            · exact Or.inr h1
        · rw [show bwStep today (some gs) (k0, r0) = some gs from by
            simp [bwStep, hb, hno, hdelta]] at h
          rw [ih gs res h n]
          simp only [List.exists_mem_cons_iff, contributes, hb, hno, Option.some.injEq]
          constructor
          · rintro (h1 | h1)
            · exact Or.inl h1
            · exact Or.inr (Or.inr h1)
          · rintro (h1 | ⟨_, bd2, h2, bty2, h3, h4⟩ | h1)
            · exact Or.inl h1
            · cases h2
              rw [hno] at h3
              injection h3 with h3
              subst h3
              exact absurd h4 hdelta
            · exact Or.inr h1


theorem bw_fold_key (today : Date) (book : Book) :
    ∀ (gs res : Groups), book.foldl (bwStep today) (some gs) = some res →
      ∀ n k, inKey n k res ↔ inKey n k gs ∨ ∃ e ∈ book, contributesKey today n k e := by
  induction book with
  | nil =>
    intro gs res h n k
    injection h with h
    subst h
    simp
  | cons e rest ih =>
    intro gs res h n k
    obtain ⟨k0, r0⟩ := e
    simp only [List.foldl] at h
    cases hb : r0.birthday with
    | none =>
      rw [show bwStep today (some gs) (k0, r0) = some gs from by simp [bwStep, hb]] at h
      rw [ih gs res h n k]
      simp only [List.exists_mem_cons_iff, contributesKey, hb]
      constructor
      · rintro (h1 | h1)
        · exact Or.inl h1
        · exact Or.inr (Or.inr h1)
      · rintro (h1 | ⟨_, _, h2, _⟩ | h1)
        · exact Or.inl h1
        · cases h2
        · exact Or.inr h1
    | some bd =>
      cases hno : nextOccurrence bd.value today with
      | none =>
        rw [show bwStep today (some gs) (k0, r0) = none from by simp [bwStep, hb, hno]] at h
        rw [foldl_bwStep_none] at h
        cases h
      | some bty =>
        by_cases hdelta : (toOrdinal bty : Int) - (toOrdinal today : Int) < 7
        · rw [show bwStep today (some gs) (k0, r0) =
              some (appendGroup gs (groupKeyOf bty) r0.name.value) from by
            simp [bwStep, hb, hno, groupKeyOf, hdelta]] at h
          rw [ih _ res h n k, inKey_appendGroup]
          simp only [List.exists_mem_cons_iff, contributesKey, hb, hno, Option.some.injEq]
          constructor
          · rintro ((h1 | ⟨h1, h2⟩) | h1)
            · exact Or.inl h1
            · exact Or.inr (Or.inl ⟨h2.symm, bd, rfl, bty, hno, hdelta, h1.symm⟩)
            · exact Or.inr (Or.inr h1)
          · rintro (h1 | ⟨h1, bd2, h2, bty2, h3, h4, h5⟩ | h1)
            · exact Or.inl (Or.inl h1)
            · cases h2
              rw [hno] at h3
              injection h3 with h3
              subst h3
              exact Or.inl (Or.inr ⟨h5.symm, h1.symm⟩)
            · exact Or.inr h1
        · rw [show bwStep today (some gs) (k0, r0) = some gs from by
            simp [bwStep, hb, hno, hdelta]] at h
          rw [ih gs res h n k]
          simp only [List.exists_mem_cons_iff, contributesKey, hb, hno, Option.some.injEq]
          constructor
          · rintro (h1 | h1)
            · exact Or.inl h1
            · exact Or.inr (Or.inr h1)
          · rintro (h1 | ⟨_, bd2, h2, bty2, h3, h4, _⟩ | h1)
            · exact Or.inl h1
            · cases h2
              rw [hno] at h3
              injection h3 with h3
              subst h3
              exact absurd h4 hdelta
            · exact Or.inr h1

theorem nodup_key_eq {book : Book} (hnodup : (book.map Prod.fst).Nodup) {k : String}
    {a b : Record} (ha : (k, a) ∈ book) (hb : (k, b) ∈ book) : a = b := by
  induction book with
  | nil => simp at ha
  | cons e rest ih =>
    rw [List.map_cons, List.nodup_cons] at hnodup
    rcases List.mem_cons.mp ha with h1 | h1 <;> rcases List.mem_cons.mp hb with h2 | h2
    · rw [← h1] at h2
      exact (Prod.mk.injEq _ _ _ _ ▸ h2).2.symm
    · exfalso
      apply hnodup.1
      have hk : k ∈ rest.map Prod.fst := List.mem_map_of_mem Prod.fst h2
      rw [← h1]
      exact hk
    · exfalso
      apply hnodup.1
      have hk : k ∈ rest.map Prod.fst := List.mem_map_of_mem Prod.fst h1
      rw [← h2]
      exact hk
    · exact ih hnodup.2 h1 h2

theorem replaceYear_some {d : Date} {y : Nat} {d2 : Date} (h : replaceYear d y = some d2) :
    d2 = ⟨y, d.month, d.day⟩ ∧ d2.valid = true := by
  have h2 : (if (⟨y, d.month, d.day⟩ : Date).valid = true then
      some (⟨y, d.month, d.day⟩ : Date) else none) = some d2 := h
  split at h2
  · cases h2
    exact ⟨rfl, by assumption⟩
  · cases h2

theorem daysBeforeYear_succ {y : Nat} (h : 1 ≤ y) :
    daysBeforeYear (y + 1) = daysBeforeYear y + daysInYear y := by
  match y, h with
  | y + 1, _ => rfl

theorem daysBeforeMonth_mono (b : Bool) :
    ∀ m < 13, ∀ m2 < 13, m < m2 → daysBeforeMonth b m + monthLen b m ≤ daysBeforeMonth b m2 := by
  cases b <;> decide

theorem monthOffset_le (b : Bool) :
    ∀ m < 13, daysBeforeMonth b m + monthLen b m ≤ (if b then 366 else 365) := by
  cases b <;> decide

theorem date_valid_bounds {d : Date} (h : d.valid = true) :
    1 ≤ d.year ∧ d.year ≤ 9999 ∧ 1 ≤ d.month ∧ d.month ≤ 12 ∧ 1 ≤ d.day ∧
      d.day ≤ monthLen (isLeap d.year) d.month := by
  simp only [Date.valid, Bool.and_eq_true, decide_eq_true_eq] at h
  exact ⟨h.1.1.1.1.1, h.1.1.1.1.2, h.1.1.1.2, h.1.1.2, h.1.2, h.2⟩

theorem offset_le_daysInYear {d : Date} (h : d.valid = true) :
    daysBeforeMonth (isLeap d.year) d.month + d.day ≤ daysInYear d.year := by
  obtain ⟨_, _, h3, h4, _, h6⟩ := date_valid_bounds h
  have key := monthOffset_le (isLeap d.year) d.month (by omega)
  unfold daysInYear
  cases hl : isLeap d.year <;> rw [hl] at key h6 <;> simp at key ⊢ <;> omega

theorem sameYear_ord_le {a b : Date} (hav : a.valid = true) (hbv : b.valid = true)
    (hy : a.year = b.year) (hlt : dateLt b a = false) : toOrdinal a ≤ toOrdinal b := by
  obtain ⟨_, _, ha3, ha4, ha5, ha6⟩ := date_valid_bounds hav
  obtain ⟨_, _, hb3, hb4, hb5, hb6⟩ := date_valid_bounds hbv
  have hcase : a.month < b.month ∨ (a.month = b.month ∧ a.day ≤ b.day) := by
    by_contra hc
    push_neg at hc
    obtain ⟨hc1, hc2⟩ := hc
    rw [Bool.eq_false_iff] at hlt
    apply hlt
    simp only [dateLt, Bool.or_eq_true, Bool.and_eq_true, decide_eq_true_eq, beq_iff_eq]
    right
    refine ⟨hy.symm, ?_⟩
    by_cases hm : b.month = a.month
    · exact Or.inr ⟨hm, hc2 hm.symm⟩
    · exact Or.inl (by omega)
  unfold toOrdinal
  rw [hy]
  rcases hcase with hm | ⟨hm, hd⟩
  · have hmono := daysBeforeMonth_mono (isLeap b.year) a.month (by omega) b.month (by omega) hm
    have ha6b : a.day ≤ monthLen (isLeap b.year) a.month := by rw [← hy]; exact ha6
    omega
  · rw [hm]
    omega

theorem nextOccurrence_nonneg {bd today bty : Date} (htoday : today.valid = true)
    (h : nextOccurrence bd today = some bty) : toOrdinal today ≤ toOrdinal bty := by
  unfold nextOccurrence at h
  cases h1 : replaceYear bd today.year with
  | none =>
    rw [h1] at h
    cases h
  | some bty1 =>
    rw [h1] at h
    have h2 : (if dateLt bty1 today = true then replaceYear bd (today.year + 1)
        else some bty1) = some bty := h
    obtain ⟨he1, hv1⟩ := replaceYear_some h1
    by_cases hlt : dateLt bty1 today = true
    · rw [if_pos hlt] at h2
      obtain ⟨he2, hv2⟩ := replaceYear_some h2
      obtain ⟨hty1, _⟩ := date_valid_bounds htoday
      have hoff := offset_le_daysInYear htoday
      have hsucc := daysBeforeYear_succ hty1
      have hb2 : bty.year = today.year + 1 := by rw [he2]
      have hbm : 1 ≤ bty.day := (date_valid_bounds hv2).2.2.2.2.1
      unfold toOrdinal
      rw [hb2]
      omega
    · rw [if_neg hlt] at h2
      injection h2 with h2
      subst h2
      have hl : dateLt bty1 today = false := by
        rw [Bool.eq_false_iff]
        exact hlt
      have hyr : today.year = bty1.year := by rw [he1]
      exact sameYear_ord_le htoday hv1 hyr hl

/-- C1: whenever the query returns a grouping, a stored record with a
birthday has a well-defined next occurrence (the this-year date, advanced
to next year exactly when strictly before today), the day distance from
today to it is never negative, and the record's name appears somewhere in
the grouping exactly when that distance is strictly less than 7; in
particular distance 0 (birthday today) satisfies the condition and is
included. -/
theorem claim1_window_membership (book : Book) (today : Date) (gs : Groups)
    (htoday : today.valid = true) (hkeys : KeysMatch book)
    (hnodup : (book.map Prod.fst).Nodup)
    (hok : get_birthdays_per_week book today = some gs)
    (k : String) (r : Record) (hmem : (k, r) ∈ book)
    (bd : Birthday) (hbd : r.birthday = some bd) :
    ∃ bty, nextOccurrence bd.value today = some bty ∧
      0 ≤ (toOrdinal bty : Int) - (toOrdinal today : Int) ∧
      (inGroups r.name.value gs ↔ (toOrdinal bty : Int) - (toOrdinal today : Int) < 7) := by
  cases hno : nextOccurrence bd.value today with
  | none =>
    have hnone := bw_error_of_none today book (some []) k r bd hmem hbd hno
    unfold get_birthdays_per_week at hok
    rw [hnone] at hok
    cases hok
  | some bty =>
    refine ⟨bty, rfl, ?_, ?_⟩
    · have := nextOccurrence_nonneg htoday hno
      omega
    · have hmemiff := bw_fold_mem today book [] gs hok r.name.value
      rw [hmemiff]
      constructor
      · rintro (hfalse | ⟨e, hemem, hc⟩)
        · exact absurd hfalse inGroups_nil
        · obtain ⟨hname, bd2, hbd2, bty2, hno2, hdelta2⟩ := hc
          have hk1 : r.name.value = k := hkeys (k, r) hmem
          have he1 : e.2.name.value = e.1 := hkeys e hemem
          have hek : e.1 = k := by rw [← he1, hname, hk1]
          have hemem2 : (k, e.2) ∈ book := by
            rw [← hek]
            exact hemem
          have hre : e.2 = r := nodup_key_eq hnodup hemem2 hmem
          rw [hre] at hbd2
          rw [hbd] at hbd2
          injection hbd2 with hbd2
          subst hbd2
          rw [hno] at hno2
          injection hno2 with hno2
          subst hno2
          exact hdelta2
      · intro hdelta
        exact Or.inr ⟨(k, r), hmem, rfl, bd, hbd, bty, hno, hdelta⟩

theorem claim1_witness :
    ∃ bty, nextOccurrence (⟨5, 3, 15⟩ : Date) ⟨9, 3, 12⟩ = some bty ∧
      0 ≤ (toOrdinal bty : Int) - (toOrdinal (⟨9, 3, 12⟩ : Date) : Int) ∧
      (inGroups "Alice" [("Monday", ["Alice"])] ↔
        (toOrdinal bty : Int) - (toOrdinal (⟨9, 3, 12⟩ : Date) : Int) < 7) :=
  claim1_window_membership [("Alice", ⟨⟨"Alice"⟩, [⟨"0123456789"⟩], some ⟨⟨5, 3, 15⟩⟩⟩)]
    ⟨9, 3, 12⟩ [("Monday", ["Alice"])] (by decide)
    (by intro e he; simp at he; rw [he]) (by simp) rfl
    "Alice" ⟨⟨"Alice"⟩, [⟨"0123456789"⟩], some ⟨⟨5, 3, 15⟩⟩⟩ (by simp)
    ⟨⟨5, 3, 15⟩⟩ rfl

/-- C2: a record included in the grouping (its next occurrence lies within
the window) has its name filed under the key Monday when that date's
weekday is Saturday (5) or Sunday (6), and under the full English name of
the weekday otherwise; moreover its name appears under no other key. -/
theorem claim2_weekend_remap (book : Book) (today : Date) (gs : Groups)
    (hkeys : KeysMatch book) (hnodup : (book.map Prod.fst).Nodup)
    (hok : get_birthdays_per_week book today = some gs)
    (k : String) (r : Record) (hmem : (k, r) ∈ book)
    (bd : Birthday) (hbd : r.birthday = some bd) (bty : Date)
    (hno : nextOccurrence bd.value today = some bty)
    (hincl : (toOrdinal bty : Int) - (toOrdinal today : Int) < 7) :
    inKey r.name.value
        (if bty.weekday == 5 || bty.weekday == 6 then "Monday" else weekdayName bty.weekday)
        gs ∧
      ∀ k2, inKey r.name.value k2 gs →
        k2 = (if bty.weekday == 5 || bty.weekday == 6 then "Monday"
          else weekdayName bty.weekday) := by
  have hkeyiff := bw_fold_key today book [] gs hok r.name.value
  have hgroup : groupKeyOf bty =
      (if bty.weekday == 5 || bty.weekday == 6 then "Monday" else weekdayName bty.weekday) := rfl
  constructor
  · rw [hkeyiff]
    rw [← hgroup]
    exact Or.inr ⟨(k, r), hmem, rfl, bd, hbd, bty, hno, hincl, rfl⟩
  · intro k2 hk2
    rw [hkeyiff k2] at hk2
    rcases hk2 with hfalse | ⟨e, hemem, hc⟩
    · exact absurd hfalse inKey_nil
    · obtain ⟨hname, bd2, hbd2, bty2, hno2, hdelta2, hkey2⟩ := hc
      have hk1 : r.name.value = k := hkeys (k, r) hmem
      have he1 : e.2.name.value = e.1 := hkeys e hemem
      have hek : e.1 = k := by rw [← he1, hname, hk1]
      have hemem2 : (k, e.2) ∈ book := by
        rw [← hek]
        exact hemem
      have hre : e.2 = r := nodup_key_eq hnodup hemem2 hmem
      rw [hre] at hbd2
      rw [hbd] at hbd2
      injection hbd2 with hbd2
      subst hbd2
      rw [hno] at hno2
      injection hno2 with hno2
      subst hno2
      rw [← hkey2, hgroup]

theorem claim2_witness :
    inKey "Carol"
        (if (Date.weekday ⟨9, 3, 17⟩) == 5 || (Date.weekday ⟨9, 3, 17⟩) == 6 then "Monday"
          else weekdayName (Date.weekday ⟨9, 3, 17⟩))
        [("Tuesday", ["Carol"])] ∧
      ∀ k2, inKey "Carol" k2 [("Tuesday", ["Carol"])] →
        k2 = (if (Date.weekday ⟨9, 3, 17⟩) == 5 || (Date.weekday ⟨9, 3, 17⟩) == 6 then "Monday"
          else weekdayName (Date.weekday ⟨9, 3, 17⟩)) :=
  claim2_weekend_remap [("Carol", ⟨⟨"Carol"⟩, [⟨"0123456789"⟩], some ⟨⟨6, 3, 17⟩⟩⟩)]
    ⟨9, 3, 12⟩ [("Tuesday", ["Carol"])]
    (by intro e he; simp at he; rw [he]) (by simp) rfl
    "Carol" ⟨⟨"Carol"⟩, [⟨"0123456789"⟩], some ⟨⟨6, 3, 17⟩⟩⟩ (by simp)
    ⟨⟨6, 3, 17⟩⟩ rfl ⟨9, 3, 17⟩ rfl (by decide)

theorem splitDots_ne_nil (l : List Char) : splitDots l ≠ [] := by
  cases l with
  | nil => simp [splitDots]
  | cons c rest =>
    unfold splitDots
    split
    · simp
    · split <;> simp

theorem splitDots_single {l y : List Char} (h : splitDots l = [y]) : l = y := by
  induction l generalizing y with
  | nil =>
    unfold splitDots at h
    simp only [List.cons.injEq, and_true] at h
    exact h
  | cons c rest ih =>
    unfold splitDots at h
    split at h
    · injection h with h1 h2
      exact absurd h2 (splitDots_ne_nil rest)
    · rename_i hc
      split at h
      · rename_i hnil
        exact absurd hnil (splitDots_ne_nil rest)
      · rename_i p ps hps
        injection h with h1 h2
        subst h2
        have := ih (y := p) hps
        rw [← h1, this]

theorem splitDots_pair {l m y : List Char} (h : splitDots l = [m, y]) :
    l = m ++ '.' :: y := by
  induction l generalizing m with
  | nil =>
    unfold splitDots at h
    cases h
  | cons c rest ih =>
    unfold splitDots at h
    split at h
    · rename_i hc
      injection h with h1 h2
      subst hc
      rw [← h1]
      simp [splitDots_single h2]
    · rename_i hc
      split at h
      · rename_i hnil
        exact absurd hnil (splitDots_ne_nil rest)
      · rename_i p ps hps
        injection h with h1 h2
        subst h2
        rw [← h1]
        have := ih (m := p) (by rw [hps])
        simp [this]

theorem splitDots_three {l d m y : List Char} (h : splitDots l = [d, m, y]) :
    l = d ++ '.' :: m ++ '.' :: y := by
  induction l generalizing d with
  | nil =>
    unfold splitDots at h
    cases h
  | cons c rest ih =>
    unfold splitDots at h
    split at h
    · rename_i hc
      injection h with h1 h2
      subst hc
      rw [← h1]
      simp [splitDots_pair h2]
    · rename_i hc
      split at h
      · rename_i hnil
        exact absurd hnil (splitDots_ne_nil rest)
      · rename_i p ps hps
        injection h with h1 h2
        subst h2
        rw [← h1]
        have := ih (d := p) (by rw [hps])
        simp [this]

theorem splitDots_nodot {l : List Char} (h : '.' ∉ l) : splitDots l = [l] := by
  induction l with
  | nil => rfl
  | cons c rest ih =>
    have hc : ¬ c = '.' := fun he => h (he ▸ List.mem_cons_self _ _)
    have hrest : '.' ∉ rest := fun he => h (List.mem_cons_of_mem _ he)
    rw [splitDots, if_neg hc, ih hrest]

theorem splitDots_append {a t : List Char} (h : '.' ∉ a) :
    splitDots (a ++ '.' :: t) = a :: splitDots t := by
  induction a with
  | nil =>
    rw [List.nil_append, splitDots, if_pos rfl]
  | cons c rest ih =>
    have hc : ¬ c = '.' := fun he => h (he ▸ List.mem_cons_self _ _)
    have hrest : '.' ∉ rest := fun he => h (List.mem_cons_of_mem _ he)
    rw [List.cons_append, splitDots, if_neg hc, ih hrest]

theorem asciiDigit_nd {c : Char} (h : asciiDigit c = true) : ndDigit c = true := by
  simp only [asciiDigit, Bool.and_eq_true, decide_eq_true_eq] at h
  simp only [ndDigit, ndRanges, List.any_cons, Bool.or_eq_true, Bool.and_eq_true,
    decide_eq_true_eq]
  left
  omega

theorem ndDigit_ne_dot {c : Char} (h : ndDigit c = true) : c ≠ '.' := by
  intro he
  subst he
  exact absurd h (by decide)

theorem digitVal_ascii {c : Char} (h : asciiDigit c = true) : digitVal c = c.toNat - 48 := by
  simp only [asciiDigit, Bool.and_eq_true, decide_eq_true_eq] at h
  obtain ⟨h1, h2⟩ := h
  generalize hn : c.toNat = n at h1 h2
  rw [show c = Char.ofNat n from by rw [← hn]; exact (Char.ofNat_toNat c).symm]
  interval_cases n <;> decide

theorem digitChar_ascii {c : Char} (h : asciiDigit c = true) :
    Nat.digitChar (c.toNat - 48) = c := by
  simp only [asciiDigit, Bool.and_eq_true, decide_eq_true_eq] at h
  obtain ⟨h1, h2⟩ := h
  generalize hn : c.toNat = n at h1 h2
  rw [show c = Char.ofNat n from by rw [← hn]; exact (Char.ofNat_toNat c).symm]
  interval_cases n <;> decide

theorem asciiDigit_bounds {c : Char} (h : asciiDigit c = true) :
    48 ≤ c.toNat ∧ c.toNat ≤ 57 := by
  simpa only [asciiDigit, Bool.and_eq_true, decide_eq_true_eq] using h

theorem pad2_partVal {d : List Char} (hlen : d.length = 2)
    (hd : ∀ c ∈ d, asciiDigit c = true) : pad2chars (partVal d) = d := by
  match d, hlen with
  | [c1, c2], _ =>
    have h1 := hd c1 (by simp)
    have h2 := hd c2 (by simp)
    obtain ⟨hb1, hb2⟩ := asciiDigit_bounds h1
    obtain ⟨hb3, hb4⟩ := asciiDigit_bounds h2
    have hval : partVal [c1, c2] = 10 * (c1.toNat - 48) + (c2.toNat - 48) := by
      simp only [partVal, List.foldl, digitVal_ascii h1, digitVal_ascii h2]
      omega
    unfold pad2chars
    rw [hval]
    have e1 : (10 * (c1.toNat - 48) + (c2.toNat - 48)) / 10 % 10 = c1.toNat - 48 := by omega
    have e2 : (10 * (c1.toNat - 48) + (c2.toNat - 48)) % 10 = c2.toNat - 48 := by omega
    rw [e1, e2, digitChar_ascii h1, digitChar_ascii h2]

theorem pad4_partVal {y : List Char} (hlen : y.length = 4)
    (hy : ∀ c ∈ y, asciiDigit c = true) : pad4chars (partVal y) = y := by
  match y, hlen with
  | [c1, c2, c3, c4], _ =>
    have h1 := hy c1 (by simp)
    have h2 := hy c2 (by simp)
    have h3 := hy c3 (by simp)
    have h4 := hy c4 (by simp)
    obtain ⟨hb1, hb2⟩ := asciiDigit_bounds h1
    obtain ⟨hb3, hb4⟩ := asciiDigit_bounds h2
    obtain ⟨hb5, hb6⟩ := asciiDigit_bounds h3
    obtain ⟨hb7, hb8⟩ := asciiDigit_bounds h4
    have hval : partVal [c1, c2, c3, c4] =
        1000 * (c1.toNat - 48) + 100 * (c2.toNat - 48) + 10 * (c3.toNat - 48) +
          (c4.toNat - 48) := by
      simp only [partVal, List.foldl, digitVal_ascii h1, digitVal_ascii h2, digitVal_ascii h3,
        digitVal_ascii h4]
      omega
    unfold pad4chars
    rw [hval]
    have e1 : (1000 * (c1.toNat - 48) + 100 * (c2.toNat - 48) + 10 * (c3.toNat - 48) +
        (c4.toNat - 48)) / 1000 % 10 = c1.toNat - 48 := by omega
    have e2 : (1000 * (c1.toNat - 48) + 100 * (c2.toNat - 48) + 10 * (c3.toNat - 48) +
        (c4.toNat - 48)) / 100 % 10 = c2.toNat - 48 := by omega
    have e3 : (1000 * (c1.toNat - 48) + 100 * (c2.toNat - 48) + 10 * (c3.toNat - 48) +
        (c4.toNat - 48)) / 10 % 10 = c3.toNat - 48 := by omega
    have e4 : (1000 * (c1.toNat - 48) + 100 * (c2.toNat - 48) + 10 * (c3.toNat - 48) +
        (c4.toNat - 48)) % 10 = c4.toNat - 48 := by omega
    rw [e1, e2, e3, e4, digitChar_ascii h1, digitChar_ascii h2, digitChar_ascii h3,
      digitChar_ascii h4]

theorem dayShape_chars {d : List Char} (h : dayShape d = true) :
    ∀ c ∈ d, c = ' ' ∨ ndDigit c = true := by
  match d with
  | [] =>
    intro c hc
    simp at hc
  | [c1] =>
    simp only [dayShape, Bool.and_eq_true] at h
    intro c hc
    rw [List.mem_singleton] at hc
    subst hc
    exact Or.inr (asciiDigit_nd h.1)
  | [c1, c2] =>
    intro c hc
    have h2 : (if c1 = ' ' then asciiDigit c2 && decide (c2 ≠ '0')
        else decide (c1 = '3') && (decide (c2 = '0') || decide (c2 = '1')) ||
          (decide (c1 = '1') || decide (c1 = '2')) && ndDigit c2 ||
          decide (c1 = '0') && asciiDigit c2 && decide (c2 ≠ '0')) = true := h
    by_cases hsp : c1 = ' '
    · rw [if_pos hsp] at h2
      simp only [Bool.and_eq_true] at h2
      rcases List.mem_cons.mp hc with h1 | h1
      · exact Or.inl (h1.trans hsp)
      · rw [List.mem_singleton] at h1
        subst h1
        exact Or.inr (asciiDigit_nd h2.1)
    · rw [if_neg hsp] at h2
      simp only [Bool.or_eq_true, Bool.and_eq_true, decide_eq_true_eq] at h2
      rcases List.mem_cons.mp hc with h1 | h1
      · subst h1
        rcases h2 with (⟨h3, _⟩ | ⟨h3 | h3, _⟩) | ⟨⟨h3, _⟩, _⟩
        · rw [h3]
          exact Or.inr (by decide)
        · rw [h3]
          exact Or.inr (by decide)
        · rw [h3]
          exact Or.inr (by decide)
        · rw [h3]
          exact Or.inr (by decide)
      · rw [List.mem_singleton] at h1
        subst h1
        rcases h2 with (⟨_, h3 | h3⟩ | ⟨_, h3⟩) | ⟨⟨_, h3⟩, _⟩
        · rw [h3]
          exact Or.inr (by decide)
        · rw [h3]
          exact Or.inr (by decide)
        · exact Or.inr h3
        · exact Or.inr (asciiDigit_nd h3)
  | c1 :: c2 :: c3 :: rest =>
    exact Bool.noConfusion h

theorem monthShape_chars {m : List Char} (h : monthShape m = true) :
    ∀ c ∈ m, ndDigit c = true := by
  match m with
  | [] =>
    intro c hc
    simp at hc
  | [c1] =>
    simp only [monthShape, Bool.and_eq_true] at h
    intro c hc
    rw [List.mem_singleton] at hc
    subst hc
    exact asciiDigit_nd h.1
  | [c1, c2] =>
    intro c hc
    have h2 : (decide (c1 = '1') && (decide (c2 = '0') || decide (c2 = '1') || decide (c2 = '2')) ||
        decide (c1 = '0') && asciiDigit c2 && decide (c2 ≠ '0')) = true := h
    simp only [Bool.or_eq_true, Bool.and_eq_true, decide_eq_true_eq] at h2
    rcases List.mem_cons.mp hc with h1 | h1
    · subst h1
      rcases h2 with ⟨h3, _⟩ | ⟨⟨h3, _⟩, _⟩
      · rw [h3]
        decide
      · rw [h3]
        decide
    · rw [List.mem_singleton] at h1
      subst h1
      rcases h2 with ⟨_, (h3 | h3) | h3⟩ | ⟨⟨_, h3⟩, _⟩
      · rw [h3]
        decide
      · rw [h3]
        decide
      · rw [h3]
        decide
      · exact asciiDigit_nd h3
  | c1 :: c2 :: c3 :: rest =>
    exact Bool.noConfusion h

theorem yearShape_chars {y : List Char} (h : yearShape y = true) :
    ∀ c ∈ y, ndDigit c = true := by
  simp only [yearShape, Bool.and_eq_true, List.all_eq_true] at h
  exact h.2

theorem dayShape_no_dot {d : List Char} (h : dayShape d = true) : '.' ∉ d := by
  intro hc
  rcases dayShape_chars h '.' hc with h1 | h1
  · cases h1
  · exact absurd h1 (by decide)

theorem monthShape_no_dot {m : List Char} (h : monthShape m = true) : '.' ∉ m := by
  intro hc
  exact absurd (monthShape_chars h '.' hc) (by decide)

theorem yearShape_no_dot {y : List Char} (h : yearShape y = true) : '.' ∉ y := by
  intro hc
  exact absurd (yearShape_chars h '.' hc) (by decide)

theorem strptime_some {s : String} {dt : Date} (h : strptimeDMY s = some dt) :
    ∃ d m y, splitDots s.data = [d, m, y] ∧ dayShape d = true ∧ monthShape m = true ∧
      yearShape y = true ∧ dt = ⟨partVal y, partVal m, partVal d⟩ ∧ dt.valid = true := by
  unfold strptimeDMY at h
  split at h
  · rename_i d m y heq
    split at h
    · rename_i hshapes
      simp only [Bool.and_eq_true] at hshapes
      have h2 : (if (⟨partVal y, partVal m, partVal d⟩ : Date).valid = true then
          some (⟨partVal y, partVal m, partVal d⟩ : Date) else none) = some dt := h
      split at h2
      · rename_i hvalid
        injection h2 with h2
        exact ⟨d, m, y, heq, hshapes.1.1, hshapes.1.2, hshapes.2, h2.symm, h2 ▸ hvalid⟩
      · cases h2
    · cases h
  · cases h

/-- C4, amended: Birthday construction succeeds exactly when the string
decomposes as day-field, period, month-field, period, year-field under
strptime's lenient %d.%m.%Y grammar (the day and month may be a single
digit, the day may be space-padded, the year is exactly four digits) with
the extracted numbers forming a valid calendar date — so acceptance is
wider than the strict two-digit DD.MM.YYYY the claim states; re-formatting
the stored date with strftime("%d.%m.%Y") reproduces the input exactly on
the strictly two-digit-day, two-digit-month, four-digit-year inputs (for
years at least 1000, below which the %Y padding is platform-dependent),
but not on the lenient ones. -/
theorem claim4_birthday_roundtrip (s : String) :
    ((mkBirthday s).isOk = true ↔ lenientDMY s) ∧
      (∀ b, mkBirthday s = .ok b → strictDMY s → 1000 ≤ b.value.year →
        formatDMY b.value = s) := by
  constructor
  · constructor
    · intro h
      unfold mkBirthday at h
      cases hp : strptimeDMY s with
      | none =>
        rw [hp] at h
        exact absurd h (by simp [Except.isOk, Except.toBool])
      | some dt =>
        obtain ⟨d, m, y, hsplit, hd, hm, hy, hdt, hvalid⟩ := strptime_some hp
        refine ⟨d, m, y, splitDots_three hsplit, hd, hm, hy, ?_⟩
        rw [← hdt]
        exact hvalid
    · rintro ⟨d, m, y, hdecomp, hd, hm, hy, hvalid⟩
      have hdecomp2 : s.data = d ++ '.' :: (m ++ '.' :: y) := by
        rw [hdecomp, List.append_assoc, List.cons_append]
      have hsplit : splitDots s.data = [d, m, y] := by
        rw [hdecomp2, splitDots_append (dayShape_no_dot hd),
          splitDots_append (monthShape_no_dot hm), splitDots_nodot (yearShape_no_dot hy)]
      unfold mkBirthday strptimeDMY
      rw [hsplit]
      simp [hd, hm, hy, hvalid, Except.isOk, Except.toBool]
  · intro b hok hstrict hyear
    unfold mkBirthday at hok
    cases hp : strptimeDMY s with
    | none =>
      rw [hp] at hok
      cases hok
    | some dt =>
      rw [hp] at hok
      injection hok with hok
      obtain ⟨d0, m0, y0, hsplit0, hd0, hm0, hy0, hdt0, hvalid0⟩ := strptime_some hp
      obtain ⟨d, m, y, hdecomp, hdlen, hdascii, hmlen, hmascii, hylen, hyascii⟩ := hstrict
      have hddot : '.' ∉ d := fun hcm => absurd (hdascii '.' hcm) (by decide)
      have hmdot : '.' ∉ m := fun hcm => absurd (hmascii '.' hcm) (by decide)
      have hydot : '.' ∉ y := fun hcm => absurd (hyascii '.' hcm) (by decide)
      have hdecomp2 : s.data = d ++ '.' :: (m ++ '.' :: y) := by
        rw [hdecomp, List.append_assoc, List.cons_append]
      have hsplit1 : splitDots s.data = [d, m, y] := by
        rw [hdecomp2, splitDots_append hddot, splitDots_append hmdot, splitDots_nodot hydot]
      rw [hsplit0] at hsplit1
      simp only [List.cons.injEq, and_true] at hsplit1
      obtain ⟨hde, hme, hye⟩ := hsplit1
      rw [hde, hme, hye] at hdt0
      rw [← hok, hdt0]
      show String.mk (pad2chars (partVal d) ++ '.' :: pad2chars (partVal m) ++
        '.' :: pad4chars (partVal y)) = s
      rw [pad2_partVal hdlen hdascii, pad2_partVal hmlen hmascii, pad4_partVal hylen hyascii,
        ← hdecomp]

theorem claim4_witness :
    (mkBirthday "05.03.1999").isOk = true ∧ formatDMY (⟨1999, 3, 5⟩ : Date) = "05.03.1999" :=
  ⟨(claim4_birthday_roundtrip "05.03.1999").1.mpr
      ⟨['0', '5'], ['0', '3'], ['1', '9', '9', '9'], by decide, by decide, by decide, by decide,
        by decide⟩,
    (claim4_birthday_roundtrip "05.03.1999").2 ⟨⟨1999, 3, 5⟩⟩ rfl
      ⟨['0', '5'], ['0', '3'], ['1', '9', '9', '9'], by decide, by decide, by decide, by decide,
        by decide, by decide, by decide⟩ (by decide)⟩

theorem claim4_counterexample :
    (mkBirthday "1.1.2020").isOk = true ∧ ("1.1.2020" : String).length = 8 ∧
      mkBirthday "1.1.2020" = .ok ⟨⟨2020, 1, 1⟩⟩ ∧
      formatDMY (⟨2020, 1, 1⟩ : Date) = "01.01.2020" ∧
      ("01.01.2020" : String) ≠ "1.1.2020" := by
  refine ⟨rfl, rfl, rfl, rfl, by decide⟩
